import Mathlib

/-!
# Verification of the RBM engine (src/chap12_RBM/rbm.py)

Shallow embedding of the Restricted Boltzmann Machine implementation:
vectors and matrices are lists of reals, the NumPy global random state is
modelled by oracle functions (a standard-normal draw for the Gaussian
initialisation, uniform-[0,1) draws for the Bernoulli sampler, and a
shuffle oracle for `np.random.shuffle`), and Python exceptions are
modelled with `Except String`.
-/

open Real (exp sqrt)

/-- A NumPy 1-D array of floats. -/
abbrev RVec := List ℝ

/-- A NumPy 2-D array of floats, as a list of rows. -/
abbrev RMat := List (List ℝ)

/-- Inner product of two vectors (`np.dot` on 1-D arguments). -/
def dot (x y : RVec) : ℝ := (List.zipWith (fun a b => a * b) x y).sum

/-- Column `j` of a matrix (missing entries read as 0; the source only uses
well-shaped arrays, where every row has an entry at `j`). -/
def col (m : RMat) (j : Nat) : RVec := m.map (fun r => r.getD j 0)

/-- Transpose of a matrix whose statically known column count is `n`
(`.T` in the source; NumPy carries the count in the array's shape). -/
def transposeN (n : Nat) (m : RMat) : RMat := (List.range n).map (fun j => col m j)

/-- `np.dot a b` for 2-D `a` and `b`, with `b` supplied already transposed:
entry `(i, j)` is the inner product of row `i` of `a` with row `j` of `bT`. -/
def dotMatT (a bT : RMat) : RMat := a.map (fun r => bT.map (fun c => dot r c))

/-- Broadcast addition of a bias row vector to every row of a matrix
(`m + v` in NumPy broadcasting). -/
def addRowsVec (m : RMat) (v : RVec) : RMat := m.map (fun r => List.zipWith (fun a b => a + b) r v)

/-- Elementwise matrix subtraction. -/
def matSub (a b : RMat) : RMat := List.zipWith (List.zipWith (fun x y => x - y)) a b

/-- `np.sum (m, axis := 0)` for a matrix of statically known width `w`:
the vector of column sums. -/
def sumAxis0 (w : Nat) (m : RMat) : RVec := (List.range w).map (fun j => (col m j).sum)

/-- The logistic activation, `_sigmoid` in the source:
`1.0 / (1 + np.exp (-x))` applied to a scalar. -/
noncomputable def sigmoid (x : ℝ) : ℝ := 1.0 / (1 + exp (-x))

/-- `_sigmoid` applied elementwise to a 2-D array. -/
noncomputable def matSigmoid (m : RMat) : RMat := m.map (List.map sigmoid)

/-- `_sigmoid` applied elementwise to a 1-D array. -/
noncomputable def vecSigmoid (v : RVec) : RVec := v.map sigmoid

/-- State of an `RBM` instance: layer sizes, the weight matrix `W`
(`n_observe × n_hidden`), the vestigial bias fields `Wv`, `Wh` from the
first (dead) initialisation block, and the bias vectors `b_h`, `b_v`
actually used by training and sampling. -/
structure RBM where
  n_hidden : Nat
  n_observe : Nat
  W : RMat
  Wv : RMat
  Wh : RMat
  b_h : RVec
  b_v : RVec

/-- `RBM.__init__`: validates that both layer sizes are positive integers
(Python `isinstance (x, int) and x > 0`; here the argument domain is ℚ, so
that non-integer arguments are expressible, and integrality is `den = 1`),
raising `ValueError` otherwise.  `np.random.normal (loc, scale, size)` is
modelled as `loc + scale * g i j` with `g` a standard-normal oracle; the
first `W` draw (scale `0.1`) is overwritten by the Xavier draw with
standard deviation `sqrt (2 / (n_observe + n_hidden))`, exactly as in the
source, and `b_h`, `b_v` are zero vectors. -/
noncomputable def mkRBM (g1 g2 : Nat → Nat → ℝ) (n_hidden n_observe : ℚ) :
    Except String RBM :=
  if ¬ (n_hidden.den = 1 ∧ 0 < n_hidden) then
    Except.error "n_hidden must be a positive integer"
  else if ¬ (n_observe.den = 1 ∧ 0 < n_observe) then
    Except.error "n_observe must be a positive integer"
  else
    let nh := n_hidden.num.toNat
    let no := n_observe.num.toNat
    let _W0 := (List.range no).map (fun i => (List.range nh).map (fun j => 0.1 * g1 i j))
    let Wv : RMat := [List.replicate no 0]
    let Wh : RMat := [List.replicate nh 0]
    let init_std := sqrt (2.0 / ((no : ℝ) + (nh : ℝ)))
    let W := (List.range no).map (fun i => (List.range nh).map (fun j => init_std * g2 i j))
    Except.ok (RBM.mk nh no W Wv Wh (List.replicate nh 0) (List.replicate no 0))

/-- Bernoulli sampling of a 1-D probability array, the unchecked core of
`np.random.binomial (1, probs)`: entry `i` is `1` when the uniform draw
`u i` falls below `probs[i]`, else `0`. -/
noncomputable def bernoulliV (u : Nat → ℝ) (probs : RVec) : RVec :=
  probs.enum.map (fun ip => if u ip.1 < ip.2 then (1 : ℝ) else 0)

/-- Bernoulli sampling of a 2-D probability array (one uniform draw per
entry, indexed by row and column). -/
noncomputable def bernoulliM (u : Nat → Nat → ℝ) (probs : RMat) : RMat :=
  probs.enum.map (fun ir => ir.2.enum.map (fun jp => if u ir.1 jp.1 < jp.2 then (1 : ℝ) else 0))

open Classical in
/-- `RBM._sample_binary` on a 1-D array: raises `ValueError` when
`np.any (probs < 0) or np.any (probs > 1)`, otherwise returns the
Bernoulli draws. -/
noncomputable def sample_binary (u : Nat → ℝ) (probs : RVec) : Except String RVec :=
  if (∃ p ∈ probs, p < 0) ∨ (∃ p ∈ probs, 1 < p) then
    Except.error "probs must lie between 0 and 1"
  else
    Except.ok (bernoulliV u probs)

open Classical in
/-- `RBM._sample_binary` on a 2-D array (the same source function applied
to a matrix argument, as `train` does). -/
noncomputable def sample_binaryM (u : Nat → Nat → ℝ) (probs : RMat) : Except String RMat :=
  if (∃ row ∈ probs, ∃ p ∈ row, p < 0) ∨ (∃ row ∈ probs, ∃ p ∈ row, 1 < p) then
    Except.error "probs must lie between 0 and 1"
  else
    Except.ok (bernoulliM u probs)

/-- All-zero uniform oracle, used to instantiate witnesses. -/
def oz1 : Nat → ℝ := fun _ => 0

/-- All-zero uniform oracle on matrix indices. -/
def oz2 : Nat → Nat → ℝ := fun _ _ => 0

/-- Learning rate hyperparameter fixed inside `train` (`learning_rate = 0.1`). -/
noncomputable def learning_rate : ℝ := 0.1

/-- Mini-batch size hyperparameter fixed inside `train` (`batch_size = 100`). -/
def batch_size : Nat := 100

/-- Epoch count hyperparameter fixed inside `train` (`epochs = 10`). -/
def epochs : Nat := 10

/-- Positive phase of CD-1 (spec: `h0_prob = σ (v0·W + b_h)`). -/
noncomputable def cd1_h0_prob (r : RBM) (v0 : RMat) : RMat :=
  matSigmoid (addRowsVec (dotMatT v0 (transposeN r.n_hidden r.W)) r.b_h)

/-- Positive phase hidden sample (spec: `h0_sample = sampleBinary h0_prob`). -/
noncomputable def cd1_h0_sample (r : RBM) (v0 : RMat) (u1 : Nat → Nat → ℝ) : RMat :=
  bernoulliM u1 (cd1_h0_prob r v0)

/-- Reconstruction probabilities (spec: `v1_prob = σ (h0_sample·Wᵗ + b_v)`). -/
noncomputable def cd1_v1_prob (r : RBM) (v0 : RMat) (u1 : Nat → Nat → ℝ) : RMat :=
  matSigmoid (addRowsVec (dotMatT (cd1_h0_sample r v0 u1) r.W) r.b_v)

/-- Reconstruction sample (spec: `v1_sample = sampleBinary v1_prob`). -/
noncomputable def cd1_v1_sample (r : RBM) (v0 : RMat) (u1 u2 : Nat → Nat → ℝ) : RMat :=
  bernoulliM u2 (cd1_v1_prob r v0 u1)

/-- Negative phase (spec: `h1_prob = σ (v1_sample·W + b_h)`, a probability,
never passed through the binary sampler). -/
noncomputable def cd1_h1_prob (r : RBM) (v0 : RMat) (u1 u2 : Nat → Nat → ℝ) : RMat :=
  matSigmoid (addRowsVec (dotMatT (cd1_v1_sample r v0 u1 u2) (transposeN r.n_hidden r.W)) r.b_h)

/-- Weight gradient (spec: `dW = v0ᵗ·h0_sample − v1_sampleᵗ·h1_prob`). -/
noncomputable def cd1_dW (r : RBM) (v0 : RMat) (u1 u2 : Nat → Nat → ℝ) : RMat :=
  matSub (dotMatT (transposeN r.n_observe v0) (transposeN r.n_hidden (cd1_h0_sample r v0 u1)))
    (dotMatT (transposeN r.n_observe (cd1_v1_sample r v0 u1 u2))
      (transposeN r.n_hidden (cd1_h1_prob r v0 u1 u2)))

/-- Visible bias gradient (spec: `db_v = Σ_rows (v0 − v1_sample)`). -/
noncomputable def cd1_db_v (r : RBM) (v0 : RMat) (u1 u2 : Nat → Nat → ℝ) : RVec :=
  sumAxis0 r.n_observe (matSub v0 (cd1_v1_sample r v0 u1 u2))

/-- Hidden bias gradient (spec: `db_h = Σ_rows (h0_sample − h1_prob)`). -/
noncomputable def cd1_db_h (r : RBM) (v0 : RMat) (u1 u2 : Nat → Nat → ℝ) : RVec :=
  sumAxis0 r.n_hidden (matSub (cd1_h0_sample r v0 u1) (cd1_h1_prob r v0 u1 u2))

/-- The parameter state after one successful batch iteration of `train`. -/
noncomputable def cd1_update (r : RBM) (v0 : RMat) (u1 u2 : Nat → Nat → ℝ) : RBM :=
  { r with
    W := List.zipWith (List.zipWith (fun w d => w + learning_rate * d / (batch_size : ℝ)))
      r.W (cd1_dW r v0 u1 u2)
    b_v := List.zipWith (fun b d => b + learning_rate * d / (batch_size : ℝ))
      r.b_v (cd1_db_v r v0 u1 u2)
    b_h := List.zipWith (fun b d => b + learning_rate * d / (batch_size : ℝ))
      r.b_h (cd1_db_h r v0 u1 u2) }

/-- One batch iteration of `train` (source lines 136-179): positive phase,
reconstruction, negative phase, gradients, and the in-place parameter
update, with `ValueError` from `_sample_binary` propagating. -/
noncomputable def batchStep (r : RBM) (v0 : RMat) (u1 u2 : Nat → Nat → ℝ) : Except String RBM := do
  let h0_prob := matSigmoid (addRowsVec (dotMatT v0 (transposeN r.n_hidden r.W)) r.b_h)
  let h0_sample ← sample_binaryM u1 h0_prob
  let v1_prob := matSigmoid (addRowsVec (dotMatT h0_sample r.W) r.b_v)
  let v1_sample ← sample_binaryM u2 v1_prob
  let h1_prob := matSigmoid (addRowsVec (dotMatT v1_sample (transposeN r.n_hidden r.W)) r.b_h)
  let dW := matSub (dotMatT (transposeN r.n_observe v0) (transposeN r.n_hidden h0_sample))
    (dotMatT (transposeN r.n_observe v1_sample) (transposeN r.n_hidden h1_prob))
  let db_v := sumAxis0 r.n_observe (matSub v0 v1_sample)
  let db_h := sumAxis0 r.n_hidden (matSub h0_sample h1_prob)
  pure { r with
    W := List.zipWith (List.zipWith (fun w d => w + learning_rate * d / (batch_size : ℝ))) r.W dW
    b_v := List.zipWith (fun b d => b + learning_rate * d / (batch_size : ℝ)) r.b_v db_v
    b_h := List.zipWith (fun b d => b + learning_rate * d / (batch_size : ℝ)) r.b_h db_h }

/-- A minimal concrete engine state (one hidden and one visible unit),
used to instantiate witnesses and counterexamples. -/
def rbm1 : RBM := RBM.mk 1 1 [[0]] [[0]] [[0]] [0] [0]

/-- Number of mini-batches per epoch: the length of Python's
`range (0, n_samples, batch_size)`. -/
def numBatches (n_samples : Nat) : Nat := (n_samples + batch_size - 1) / batch_size

/-- One epoch of `train` (source lines 128-179): shuffle the flattened
data in place (`np.random.shuffle` modelled by the shuffle oracle `sh`),
then run a batch iteration on each contiguous slice
`data_flat[i : i + batch_size]`.  The state is the parameter object
together with the current contents of the caller's (shuffled) data
array. -/
noncomputable def epochStep (sh : Nat → RMat → RMat) (u : Nat → Nat → Nat → Nat → Nat → ℝ)
    (n_samples : Nat) (st : RBM × RMat) (e : Nat) : Except String (RBM × RMat) := do
  let d := sh e st.2
  let r ← (List.range (numBatches n_samples)).foldlM
    (fun r b => batchStep r ((d.drop (b * batch_size)).take batch_size) (u e b 0) (u e b 1))
    st.1
  pure (r, d)

/-- `RBM.train` (source lines 96-179): 10 epochs of shuffled mini-batch
CD-1.  The input `data` is the flattened 2-D view of the caller's array
(`data.reshape (data.shape[0], -1)` is a view, so the in-place shuffle is
visible to the caller); the returned second component is the caller's
array contents after `train` returns. -/
noncomputable def RBM.train (r : RBM) (data : RMat) (sh : Nat → RMat → RMat)
    (u : Nat → Nat → Nat → Nat → Nat → ℝ) : Except String (RBM × RMat) :=
  let n_samples := data.length
  (List.range epochs).foldlM (epochStep sh u n_samples) (r, data)

/-- Pure (error-free) unfolding of `epochStep`. -/
noncomputable def epochPure (sh : Nat → RMat → RMat) (u : Nat → Nat → Nat → Nat → Nat → ℝ)
    (n_samples : Nat) (st : RBM × RMat) (e : Nat) : RBM × RMat :=
  let d := sh e st.2
  ((List.range (numBatches n_samples)).foldl
    (fun r b => cd1_update r ((d.drop (b * batch_size)).take batch_size) (u e b 0) (u e b 1))
    st.1, d)

/-- Pure (error-free) unfolding of `RBM.train`. -/
noncomputable def trainPure (r : RBM) (data : RMat) (sh : Nat → RMat → RMat)
    (u : Nat → Nat → Nat → Nat → Nat → ℝ) : RBM × RMat :=
  (List.range epochs).foldl (epochPure sh u data.length) (r, data)

/-- The shape invariant of §3 of the spec: `W` is `n_observe × n_hidden`,
`b_v` has length `n_observe`, `b_h` has length `n_hidden`. -/
def WellShaped (r : RBM) : Prop :=
  r.W.length = r.n_observe ∧ (∀ row ∈ r.W, row.length = r.n_hidden) ∧
  r.b_v.length = r.n_observe ∧ r.b_h.length = r.n_hidden

/-- All-zero uniform oracle for the five-index sampling stream of `train`. -/
def oz5 : Nat → Nat → Nat → Nat → Nat → ℝ := fun _ _ _ _ _ => 0

/-- A shuffle oracle that reverses the rows in epoch 0 and leaves the
array alone in later epochs (one admissible outcome of
`np.random.shuffle`). -/
def shRev : Nat → RMat → RMat := fun e d => if e = 0 then d.reverse else d

/-- The identity shuffle oracle (another admissible outcome). -/
def shId : Nat → RMat → RMat := fun _ d => d

/-- A two-row, one-column dataset with distinguishable rows. -/
def dataC2 : RMat := [[0], [1]]

/-- `np.dot v m` for a 1-D `v` and 2-D `m`, with `m` supplied already
transposed: entry `j` is the inner product of `v` with row `j` of `mT`. -/
def vecDotMat (v : RVec) (mT : RMat) : RVec := mT.map (fun c => dot v c)

/-- `np.reshape` of a 1-D array into `rows × cols`, failing (as NumPy
raises) when the sizes do not match. -/
def reshape2 (rows cols : Nat) (v : RVec) : Except String RMat :=
  if v.length = rows * cols then
    Except.ok ((List.range rows).map (fun i => (v.drop (i * cols)).take cols))
  else
    Except.error "cannot reshape array"

/-- One Gibbs iteration of `sample` (source lines 191-202):
`h_prob = σ (v·W + b_h)`, `h_sample = _sample_binary h_prob`,
`v_prob = σ (h_sample·Wᵗ + b_v)`, `v = _sample_binary v_prob`. -/
noncomputable def gibbsStep (r : RBM) (u : Nat → Nat → ℝ) (v : RVec) : Except String RVec := do
  let h_prob := vecSigmoid (List.zipWith (fun a b => a + b)
    (vecDotMat v (transposeN r.n_hidden r.W)) r.b_h)
  let h_sample ← sample_binary (u 0) h_prob
  let v_prob := vecSigmoid (List.zipWith (fun a b => a + b)
    (vecDotMat h_sample r.W) r.b_v)
  sample_binary (u 1) v_prob

/-- Pure (error-free) unfolding of `gibbsStep`. -/
noncomputable def gibbsPure (r : RBM) (u : Nat → Nat → ℝ) (v : RVec) : RVec :=
  bernoulliV (u 1) (vecSigmoid (List.zipWith (fun a b => a + b)
    (vecDotMat (bernoulliV (u 0) (vecSigmoid (List.zipWith (fun a b => a + b)
      (vecDotMat v (transposeN r.n_hidden r.W)) r.b_h))) r.W) r.b_v))

/-- `RBM.sample` (source lines 181-205): start from a Bernoulli(0.5)
binary visible vector of length `n_observe` (`np.random.binomial` called
directly, without the range check), run exactly 1000 Gibbs iterations,
and return `v.reshape (28, 28)` — the engine itself reshapes to the
hard-coded 28 × 28 image layout. -/
noncomputable def RBM.sample (r : RBM) (u0 : Nat → ℝ) (u : Nat → Nat → Nat → ℝ) :
    Except String RMat := do
  let v0 := (List.range r.n_observe).map (fun i => if u0 i < 0.5 then (1 : ℝ) else 0)
  let v ← (List.range 1000).foldlM (fun v t => gibbsStep r (u t) v) v0
  reshape2 28 28 v

/-- An engine with two visible units (shapes consistent: `W` is `2 × 1`). -/
def rbm2 : RBM := RBM.mk 1 2 [[0], [0]] [[0, 0]] [[0]] [0] [0, 0]

/-- An engine with 784 visible units, the MNIST-sized case. -/
def rbm784 : RBM :=
  RBM.mk 1 784 (List.replicate 784 [0]) [List.replicate 784 0] [[0]] [0]
    (List.replicate 784 0)

/-- All-zero uniform oracle for the per-iteration sampling stream of
`sample`. -/
def oz3 : Nat → Nat → Nat → ℝ := fun _ _ _ => 0

lemma sigmoid_pos (x : ℝ) : 0 < sigmoid x := by
  have h := Real.exp_pos (-x)
  unfold sigmoid
  positivity

lemma sigmoid_lt_one (x : ℝ) : sigmoid x < 1 := by
  have h := Real.exp_pos (-x)
  unfold sigmoid
  rw [div_lt_one (by linarith)]
  linarith

lemma sigmoid_mem_Icc (x : ℝ) : 0 ≤ sigmoid x ∧ sigmoid x ≤ 1 :=
  ⟨le_of_lt (sigmoid_pos x), le_of_lt (sigmoid_lt_one x)⟩

/-- C8: the sigmoid primitive satisfies `sigmoid 0 = 1/2`, is strictly
monotonically increasing, maps every (finite) real input strictly inside
the open interval `(0, 1)`, and attains `1` and `0` only in the limits at
`+∞` and `-∞` respectively. -/
theorem C8_sigmoid_props :
    sigmoid 0 = 1 / 2 ∧
    StrictMono sigmoid ∧
    (∀ x : ℝ, sigmoid x ∈ Set.Ioo (0 : ℝ) 1) ∧
    Filter.Tendsto sigmoid Filter.atTop (nhds 1) ∧
    Filter.Tendsto sigmoid Filter.atBot (nhds 0) := by
  refine ⟨?_, ?_, ?_, ?_, ?_⟩
  · unfold sigmoid
    rw [neg_zero, Real.exp_zero]
    norm_num
  · intro a b hab
    have hexp : exp (-b) < exp (-a) := Real.exp_lt_exp.mpr (by linarith)
    have hb : (0 : ℝ) < 1 + exp (-b) := by positivity
    unfold sigmoid
    rw [div_lt_div_iff₀ (by positivity) hb]
    linarith
  · exact fun x => ⟨sigmoid_pos x, sigmoid_lt_one x⟩
  · have h1 : Filter.Tendsto (fun x : ℝ => exp (-x)) Filter.atTop (nhds 0) := by
      have := Real.tendsto_exp_atBot
      exact this.comp Filter.tendsto_neg_atTop_atBot
    have h2 : Filter.Tendsto (fun x : ℝ => 1 + exp (-x)) Filter.atTop (nhds 1) := by
      have := Filter.Tendsto.add (tendsto_const_nhds (x := (1 : ℝ)) (f := Filter.atTop)) h1
      simpa using this
    have h3 : Filter.Tendsto (fun x : ℝ => 1.0 / (1 + exp (-x))) Filter.atTop
        (nhds (1.0 / 1)) :=
      Filter.Tendsto.div (tendsto_const_nhds (x := (1.0 : ℝ)) (f := Filter.atTop)) h2
        (by norm_num)
    have h4 : (1.0 / 1 : ℝ) = 1 := by norm_num
    rw [h4] at h3
    exact h3
  · have h1 : Filter.Tendsto (fun x : ℝ => 1 + exp (-x)) Filter.atBot Filter.atTop := by
      have hexp : Filter.Tendsto (fun x : ℝ => exp (-x)) Filter.atBot Filter.atTop :=
        Real.tendsto_exp_atTop.comp Filter.tendsto_neg_atBot_atTop
      exact Filter.tendsto_atTop_add_const_left _ 1 hexp
    have h2 : Filter.Tendsto (fun x : ℝ => (1 + exp (-x))⁻¹) Filter.atBot (nhds 0) :=
      Filter.Tendsto.inv_tendsto_atTop h1
    have h4 : sigmoid = fun x : ℝ => (1 + exp (-x))⁻¹ := by
      funext x
      unfold sigmoid
      norm_num
    rw [h4]
    exact h2

/-- C5: the constructor fails (raises) exactly when `n_hidden` or
`n_observe` is not a positive integer; in the `Except` model a failure
produces an `error`, hence no `RBM` value with parameters. -/
theorem C5_ctor_error_iff (g1 g2 : Nat → Nat → ℝ) (nh no : ℚ) :
    (∃ e, mkRBM g1 g2 nh no = Except.error e) ↔
      ¬ ((nh.den = 1 ∧ 0 < nh) ∧ (no.den = 1 ∧ 0 < no)) := by
  unfold mkRBM
  by_cases h1 : nh.den = 1 ∧ 0 < nh
  · by_cases h2 : no.den = 1 ∧ 0 < no
    · simp [h1, h2]
    · simp [h1, h2]
  · simp [h1]

lemma bernoulliV_length (u : Nat → ℝ) (probs : RVec) :
    (bernoulliV u probs).length = probs.length := by
  simp [bernoulliV]

lemma bernoulliV_mem (u : Nat → ℝ) (probs : RVec) :
    ∀ x ∈ bernoulliV u probs, x = 0 ∨ x = 1 := by
  intro x hx
  simp only [bernoulliV, List.mem_map] at hx
  obtain ⟨ip, _, hx⟩ := hx
  by_cases h : u ip.1 < ip.2
  · rw [if_pos h] at hx
    exact Or.inr hx.symm
  · rw [if_neg h] at hx
    exact Or.inl hx.symm

/-- C6: `_sample_binary` raises exactly when some entry of its probability
array lies outside `[0, 1]`; on an in-range array it returns, without
error, an array of the same length whose entries are all `0` or `1`. -/
theorem C6_sample_binary_spec (u : Nat → ℝ) (probs : RVec) :
    ((∃ e, sample_binary u probs = Except.error e) ↔ (∃ p ∈ probs, p < 0 ∨ 1 < p)) ∧
    ((∀ p ∈ probs, 0 ≤ p ∧ p ≤ 1) →
      ∃ out, sample_binary u probs = Except.ok out ∧ out.length = probs.length ∧
        ∀ x ∈ out, x = 0 ∨ x = 1) := by
  constructor
  · unfold sample_binary
    by_cases h : (∃ p ∈ probs, p < 0) ∨ (∃ p ∈ probs, 1 < p)
    · rw [if_pos h]
      constructor
      · intro _
        rcases h with ⟨p, hp, hlt⟩ | ⟨p, hp, hlt⟩
        · exact ⟨p, hp, Or.inl hlt⟩
        · exact ⟨p, hp, Or.inr hlt⟩
      · intro _
        exact ⟨_, rfl⟩
    · rw [if_neg h]
      constructor
      · intro ⟨e, he⟩
        exact absurd he (by simp)
      · intro ⟨p, hp, hlt⟩
        exact absurd (hlt.elim (fun h0 => Or.inl ⟨p, hp, h0⟩) (fun h1 => Or.inr ⟨p, hp, h1⟩)) h
  · intro hin
    unfold sample_binary
    rw [if_neg]
    · exact ⟨_, rfl, bernoulliV_length u probs, bernoulliV_mem u probs⟩
    · rintro (⟨p, hp, hlt⟩ | ⟨p, hp, hlt⟩)
      · exact absurd hlt (not_lt.mpr (hin p hp).1)
      · exact absurd hlt (not_lt.mpr (hin p hp).2)

/-- Witness for C6: the in-range input `[1/2]` passes the range check and
yields a length-1 array of binary entries. -/
theorem C6_sample_binary_spec_witness :
    (∀ p ∈ [(1 : ℝ) / 2], 0 ≤ p ∧ p ≤ 1) ∧
    (∃ out, sample_binary oz1 [(1 : ℝ) / 2] = Except.ok out ∧
      out.length = [(1 : ℝ) / 2].length ∧ ∀ x ∈ out, x = 0 ∨ x = 1) := by
  have hin : ∀ p ∈ [(1 : ℝ) / 2], 0 ≤ p ∧ p ≤ 1 := by
    intro p hp
    simp only [List.mem_singleton] at hp
    subst hp
    norm_num
  exact ⟨hin, (C6_sample_binary_spec oz1 [(1 : ℝ) / 2]).2 hin⟩

/-- C4: for positive integer sizes, construction succeeds; `W` is the
`n_observe × n_hidden` matrix of Gaussian draws with mean `0` and standard
deviation `sqrt (2 / (n_observe + n_hidden))`, and `b_v`, `b_h` are zero
vectors of lengths `n_observe` and `n_hidden`. -/
theorem C4_ctor_init (g1 g2 : Nat → Nat → ℝ) (nh no : Nat) (hh : 0 < nh) (ho : 0 < no) :
    ∃ r, mkRBM g1 g2 (nh : ℚ) (no : ℚ) = Except.ok r ∧
      r.n_hidden = nh ∧ r.n_observe = no ∧
      r.W = (List.range no).map (fun i => (List.range nh).map
        (fun j => sqrt (2.0 / ((no : ℝ) + (nh : ℝ))) * g2 i j)) ∧
      r.W.length = no ∧ (∀ row ∈ r.W, row.length = nh) ∧
      r.b_v = List.replicate no 0 ∧ r.b_h = List.replicate nh 0 := by
  have hden1 : ((nh : ℚ)).den = 1 := Rat.den_natCast nh
  have hpos1 : (0 : ℚ) < (nh : ℚ) := by exact_mod_cast hh
  have hden2 : ((no : ℚ)).den = 1 := Rat.den_natCast no
  have hpos2 : (0 : ℚ) < (no : ℚ) := by exact_mod_cast ho
  have hnum1 : ((nh : ℚ)).num.toNat = nh := by
    rw [Rat.num_natCast]
    exact Int.toNat_natCast nh
  have hnum2 : ((no : ℚ)).num.toNat = no := by
    rw [Rat.num_natCast]
    exact Int.toNat_natCast no
  refine ⟨RBM.mk nh no
      ((List.range no).map (fun i => (List.range nh).map
        (fun j => sqrt (2.0 / ((no : ℝ) + (nh : ℝ))) * g2 i j)))
      [List.replicate no 0] [List.replicate nh 0]
      (List.replicate nh 0) (List.replicate no 0), ?_, rfl, rfl, rfl, by simp, ?_, rfl, rfl⟩
  · unfold mkRBM
    rw [if_neg (by simp [hden1, hpos1]), if_neg (by simp [hden2, hpos2])]
    simp only [hnum1, hnum2]
  · intro row hrow
    simp only [List.mem_map] at hrow
    obtain ⟨i, _, hrow⟩ := hrow
    rw [← hrow]
    simp

/-- Witness for C4: construction with `n_hidden = 2`, `n_observe = 3`. -/
theorem C4_ctor_init_witness :
    0 < 2 ∧ 0 < 3 ∧
    (∃ r, mkRBM oz2 oz2 ((2 : Nat) : ℚ) ((3 : Nat) : ℚ) = Except.ok r ∧
      r.n_hidden = 2 ∧ r.n_observe = 3 ∧
      r.W = (List.range 3).map (fun i => (List.range 2).map
        (fun j => sqrt (2.0 / (((3 : Nat) : ℝ) + ((2 : Nat) : ℝ))) * oz2 i j)) ∧
      r.W.length = 3 ∧ (∀ row ∈ r.W, row.length = 2) ∧
      r.b_v = List.replicate 3 0 ∧ r.b_h = List.replicate 2 0) :=
  ⟨by decide, by decide, C4_ctor_init oz2 oz2 2 3 (by decide) (by decide)⟩

lemma exceptBind_ok {α β : Type} (a : α) (f : α → Except String β) :
    (Except.ok a >>= f) = f a := rfl

lemma exceptPure {α : Type} (a : α) : (pure a : Except String α) = Except.ok a := rfl

lemma sample_binaryM_sigmoid (u : Nat → Nat → ℝ) (m : RMat) :
    sample_binaryM u (matSigmoid m) = Except.ok (bernoulliM u (matSigmoid m)) := by
  have hc : ¬ ((∃ row ∈ matSigmoid m, ∃ p ∈ row, p < 0) ∨
      (∃ row ∈ matSigmoid m, ∃ p ∈ row, 1 < p)) := by
    rintro (⟨row, hrow, p, hp, hlt⟩ | ⟨row, hrow, p, hp, hlt⟩)
    · simp only [matSigmoid, List.mem_map] at hrow
      obtain ⟨r0, _, hr0⟩ := hrow
      rw [← hr0] at hp
      simp only [List.mem_map] at hp
      obtain ⟨x, _, hx⟩ := hp
      rw [← hx] at hlt
      exact absurd hlt (not_lt.mpr (le_of_lt (sigmoid_pos x)))
    · simp only [matSigmoid, List.mem_map] at hrow
      obtain ⟨r0, _, hr0⟩ := hrow
      rw [← hr0] at hp
      simp only [List.mem_map] at hp
      obtain ⟨x, _, hx⟩ := hp
      rw [← hx] at hlt
      exact absurd hlt (not_lt.mpr (le_of_lt (sigmoid_lt_one x)))
  unfold sample_binaryM
  rw [if_neg hc]

lemma batchStep_eq (r : RBM) (v0 : RMat) (u1 u2 : Nat → Nat → ℝ) :
    batchStep r v0 u1 u2 = Except.ok (cd1_update r v0 u1 u2) := by
  simp only [batchStep, sample_binaryM_sigmoid, exceptBind_ok, exceptPure,
    cd1_update, cd1_dW, cd1_db_v, cd1_db_h, cd1_h0_sample, cd1_h0_prob,
    cd1_v1_sample, cd1_v1_prob, cd1_h1_prob]

/-- C3: in every batch iteration of `train`, the negative-phase hidden
value is the probability `σ (v1_sample·W + b_h)` (`cd1_h1_prob`, built
from `matSigmoid` and never passed through the binary sampler), and the
iteration succeeds with parameter updates exactly
`W += (lr/batch_size)·dW`, `b_v += (lr/batch_size)·db_v`,
`b_h += (lr/batch_size)·db_h` for the CD-1 gradients
`dW = v0ᵗ·h0_sample − v1_sampleᵗ·h1_prob`, `db_v = Σ_rows (v0 − v1_sample)`,
`db_h = Σ_rows (h0_sample − h1_prob)`. -/
theorem C3_batch_update (r : RBM) (v0 : RMat) (u1 u2 : Nat → Nat → ℝ) :
    ∃ r', batchStep r v0 u1 u2 = Except.ok r' ∧
      r'.W = List.zipWith (List.zipWith (fun w d => w + learning_rate / (batch_size : ℝ) * d))
        r.W (cd1_dW r v0 u1 u2) ∧
      r'.b_v = List.zipWith (fun b d => b + learning_rate / (batch_size : ℝ) * d)
        r.b_v (cd1_db_v r v0 u1 u2) ∧
      r'.b_h = List.zipWith (fun b d => b + learning_rate / (batch_size : ℝ) * d)
        r.b_h (cd1_db_h r v0 u1 u2) ∧
      r'.n_hidden = r.n_hidden ∧ r'.n_observe = r.n_observe := by
  have hfun : (fun w d : ℝ => w + learning_rate * d / (batch_size : ℝ)) =
      (fun w d : ℝ => w + learning_rate / (batch_size : ℝ) * d) := by
    funext w d
    ring
  refine ⟨cd1_update r v0 u1 u2, batchStep_eq r v0 u1 u2, ?_, ?_, ?_, rfl, rfl⟩
  · show List.zipWith (List.zipWith (fun w d => w + learning_rate * d / (batch_size : ℝ)))
      r.W (cd1_dW r v0 u1 u2) = _
    rw [hfun]
  · show List.zipWith (fun b d => b + learning_rate * d / (batch_size : ℝ))
      r.b_v (cd1_db_v r v0 u1 u2) = _
    rw [hfun]
  · show List.zipWith (fun b d => b + learning_rate * d / (batch_size : ℝ))
      r.b_h (cd1_db_h r v0 u1 u2) = _
    rw [hfun]

/-- C10: the update of every parameter in a batch iteration divides the
accumulated gradient by the fixed hyperparameter `batch_size = 100`, not
by the actual number of rows in the batch; hence a final batch with fewer
than 100 rows contributes `lr/100` per row, strictly less than the
`lr/(actual rows)` a row-count normalisation would give. -/
theorem C10_fixed_batch_divisor (r : RBM) (v0 : RMat) (u1 u2 : Nat → Nat → ℝ)
    (hpos : 0 < v0.length) (hlt : v0.length < batch_size) :
    ∃ r', batchStep r v0 u1 u2 = Except.ok r' ∧
      r'.W = List.zipWith (List.zipWith (fun w d => w + learning_rate * d / (batch_size : ℝ)))
        r.W (cd1_dW r v0 u1 u2) ∧
      r'.b_v = List.zipWith (fun b d => b + learning_rate * d / (batch_size : ℝ))
        r.b_v (cd1_db_v r v0 u1 u2) ∧
      r'.b_h = List.zipWith (fun b d => b + learning_rate * d / (batch_size : ℝ))
        r.b_h (cd1_db_h r v0 u1 u2) ∧
      (batch_size : ℝ) = 100 ∧
      learning_rate / (batch_size : ℝ) < learning_rate / (v0.length : ℝ) := by
  refine ⟨cd1_update r v0 u1 u2, batchStep_eq r v0 u1 u2, rfl, rfl, rfl, by norm_num [batch_size], ?_⟩
  have hlr : (0 : ℝ) < learning_rate := by norm_num [learning_rate]
  have hm : (0 : ℝ) < (v0.length : ℝ) := by exact_mod_cast hpos
  have hmb : (v0.length : ℝ) < (batch_size : ℝ) := by exact_mod_cast hlt
  exact div_lt_div_of_pos_left hlr hm hmb

/-- Witness for C10: a single-row batch is still divided by 100. -/
theorem C10_fixed_batch_divisor_witness :
    0 < [[(0 : ℝ)]].length ∧ [[(0 : ℝ)]].length < batch_size ∧
    (∃ r', batchStep rbm1 [[(0 : ℝ)]] oz2 oz2 = Except.ok r' ∧
      r'.W = List.zipWith (List.zipWith (fun w d => w + learning_rate * d / (batch_size : ℝ)))
        rbm1.W (cd1_dW rbm1 [[(0 : ℝ)]] oz2 oz2) ∧
      r'.b_v = List.zipWith (fun b d => b + learning_rate * d / (batch_size : ℝ))
        rbm1.b_v (cd1_db_v rbm1 [[(0 : ℝ)]] oz2 oz2) ∧
      r'.b_h = List.zipWith (fun b d => b + learning_rate * d / (batch_size : ℝ))
        rbm1.b_h (cd1_db_h rbm1 [[(0 : ℝ)]] oz2 oz2) ∧
      (batch_size : ℝ) = 100 ∧
      learning_rate / (batch_size : ℝ) < learning_rate / ([[(0 : ℝ)]].length : ℝ)) :=
  ⟨by decide, by decide,
    C10_fixed_batch_divisor rbm1 [[(0 : ℝ)]] oz2 oz2 (by decide) (by decide)⟩

lemma mem_zipWith {α β γ : Type} {f : α → β → γ} :
    ∀ {l1 : List α} {l2 : List β} {c : γ}, c ∈ List.zipWith f l1 l2 →
      ∃ a b, a ∈ l1 ∧ b ∈ l2 ∧ c = f a b := by
  intro l1
  induction l1 with
  | nil =>
    intro l2 c h
    simp at h
  | cons a t ih =>
    intro l2 c h
    cases l2 with
    | nil => simp at h
    | cons b t2 =>
      rw [List.zipWith_cons_cons] at h
      rcases List.mem_cons.mp h with h | h
      · exact ⟨a, b, List.mem_cons_self a t, List.mem_cons_self b t2, h⟩
      · obtain ⟨a', b', ha, hb, hc⟩ := ih h
        exact ⟨a', b', List.mem_cons_of_mem a ha, List.mem_cons_of_mem b hb, hc⟩

lemma foldl_invariant {σ α : Type} (P : σ → Prop) (f : σ → α → σ)
    (hstep : ∀ s a, P s → P (f s a)) :
    ∀ (l : List α) (s : σ), P s → P (l.foldl f s) := by
  intro l
  induction l with
  | nil => intro s hs; exact hs
  | cons a t ih => intro s hs; exact ih (f s a) (hstep s a hs)

lemma foldlM_except_ok {σ α : Type} (f : σ → α → Except String σ) (g : σ → α → σ)
    (hf : ∀ s a, f s a = Except.ok (g s a)) :
    ∀ (l : List α) (init : σ), l.foldlM f init = Except.ok (l.foldl g init) := by
  intro l
  induction l with
  | nil => intro init; rfl
  | cons a t ih =>
    intro init
    rw [List.foldlM_cons, hf, exceptBind_ok, ih, List.foldl_cons]

lemma epochStep_eq (sh : Nat → RMat → RMat) (u : Nat → Nat → Nat → Nat → Nat → ℝ)
    (n_samples : Nat) (st : RBM × RMat) (e : Nat) :
    epochStep sh u n_samples st e = Except.ok (epochPure sh u n_samples st e) := by
  unfold epochStep epochPure
  simp only [exceptPure]
  rw [foldlM_except_ok _ _ (fun s b => batchStep_eq s _ _ _), exceptBind_ok]

lemma train_eq (r : RBM) (data : RMat) (sh : Nat → RMat → RMat)
    (u : Nat → Nat → Nat → Nat → Nat → ℝ) :
    RBM.train r data sh u = Except.ok (trainPure r data sh u) := by
  unfold RBM.train trainPure
  exact foldlM_except_ok _ _ (fun st e => epochStep_eq sh u data.length st e)
    (List.range epochs) (r, data)

lemma foldl_epochPure_snd (sh : Nat → RMat → RMat) (u : Nat → Nat → Nat → Nat → Nat → ℝ)
    (n_samples : Nat) :
    ∀ (l : List Nat) (st : RBM × RMat),
      (l.foldl (epochPure sh u n_samples) st).2 = l.foldl (fun d e => sh e d) st.2 := by
  intro l
  induction l with
  | nil => intro st; rfl
  | cons e t ih =>
    intro st
    rw [List.foldl_cons, List.foldl_cons, ih]
    rfl

lemma trainPure_snd (r : RBM) (data : RMat) (sh : Nat → RMat → RMat)
    (u : Nat → Nat → Nat → Nat → Nat → ℝ) :
    (trainPure r data sh u).2 = (List.range epochs).foldl (fun d e => sh e d) data :=
  foldl_epochPure_snd sh u data.length (List.range epochs) (r, data)

lemma length_transposeN (n : Nat) (m : RMat) : (transposeN n m).length = n := by
  simp [transposeN]

lemma length_dotMatT (a bT : RMat) : (dotMatT a bT).length = a.length := by
  simp [dotMatT]

lemma mem_dotMatT_length (a bT : RMat) : ∀ row ∈ dotMatT a bT, row.length = bT.length := by
  intro row h
  simp only [dotMatT, List.mem_map] at h
  obtain ⟨ra, _, hr⟩ := h
  rw [← hr]
  simp

lemma cd1_dW_shape (r : RBM) (v0 : RMat) (u1 u2 : Nat → Nat → ℝ) :
    (cd1_dW r v0 u1 u2).length = r.n_observe ∧
    ∀ row ∈ cd1_dW r v0 u1 u2, row.length = r.n_hidden := by
  constructor
  · simp [cd1_dW, matSub, dotMatT, transposeN]
  · intro row h
    simp only [cd1_dW, matSub] at h
    obtain ⟨ra, rb, ha, hb, hc⟩ := mem_zipWith h
    have hla : ra.length = r.n_hidden := by
      have := mem_dotMatT_length _ _ ra ha
      rwa [length_transposeN] at this
    have hlb : rb.length = r.n_hidden := by
      have := mem_dotMatT_length _ _ rb hb
      rwa [length_transposeN] at this
    rw [hc, List.length_zipWith, hla, hlb, min_self]

lemma cd1_update_shapes (r : RBM) (v0 : RMat) (u1 u2 : Nat → Nat → ℝ) (h : WellShaped r) :
    WellShaped (cd1_update r v0 u1 u2) ∧
    (cd1_update r v0 u1 u2).n_hidden = r.n_hidden ∧
    (cd1_update r v0 u1 u2).n_observe = r.n_observe := by
  obtain ⟨hW, hWr, hbv, hbh⟩ := h
  obtain ⟨hdWl, hdWr⟩ := cd1_dW_shape r v0 u1 u2
  refine ⟨⟨?_, ?_, ?_, ?_⟩, rfl, rfl⟩
  · show (List.zipWith _ r.W (cd1_dW r v0 u1 u2)).length = r.n_observe
    rw [List.length_zipWith, hW, hdWl, min_self]
  · intro row hrow
    obtain ⟨ra, rb, ha, hb, hc⟩ := mem_zipWith hrow
    rw [hc, List.length_zipWith, hWr ra ha, hdWr rb hb, min_self]
    rfl
  · show (List.zipWith _ r.b_v (cd1_db_v r v0 u1 u2)).length = r.n_observe
    rw [List.length_zipWith, hbv]
    simp [cd1_db_v, sumAxis0]
  · show (List.zipWith _ r.b_h (cd1_db_h r v0 u1 u2)).length = r.n_hidden
    rw [List.length_zipWith, hbh]
    simp [cd1_db_h, sumAxis0]

lemma trainPure_shapes (r : RBM) (data : RMat) (sh : Nat → RMat → RMat)
    (u : Nat → Nat → Nat → Nat → Nat → ℝ) (h : WellShaped r) :
    WellShaped (trainPure r data sh u).1 ∧
    (trainPure r data sh u).1.n_hidden = r.n_hidden ∧
    (trainPure r data sh u).1.n_observe = r.n_observe := by
  have hstep : ∀ (st : RBM × RMat) (e : Nat),
      (WellShaped st.1 ∧ st.1.n_hidden = r.n_hidden ∧ st.1.n_observe = r.n_observe) →
      (WellShaped (epochPure sh u data.length st e).1 ∧
        (epochPure sh u data.length st e).1.n_hidden = r.n_hidden ∧
        (epochPure sh u data.length st e).1.n_observe = r.n_observe) := by
    intro st e hst
    have inner := foldl_invariant
      (fun q : RBM => WellShaped q ∧ q.n_hidden = r.n_hidden ∧ q.n_observe = r.n_observe)
      (fun q b => cd1_update q
        (List.take batch_size (List.drop (b * batch_size) (sh e st.2))) (u e b 0) (u e b 1))
      (fun q b hq => by
        obtain ⟨hsq, hnh, hno⟩ := hq
        obtain ⟨hs', hnh', hno'⟩ := cd1_update_shapes q _ (u e b 0) (u e b 1) hsq
        exact ⟨hs', hnh'.trans hnh, hno'.trans hno⟩)
      (List.range (numBatches data.length)) st.1 hst
    exact inner
  have main := foldl_invariant
    (fun st : RBM × RMat =>
      WellShaped st.1 ∧ st.1.n_hidden = r.n_hidden ∧ st.1.n_observe = r.n_observe)
    (epochPure sh u data.length) hstep (List.range epochs) (r, data) ⟨h, rfl, rfl⟩
  exact main

/-- C9: with a well-shaped engine and data rows of width `n_visible`,
`train` returns successfully and leaves `n_hidden`, `n_observe` and all
parameter shapes unchanged: `W` stays `n_observe × n_hidden`, `b_v` stays
length `n_observe`, `b_h` stays length `n_hidden`.  (`sample` reads the
parameters without writing any field, so it cannot change them.) -/
theorem C9_shapes_invariant (r : RBM) (data : RMat) (sh : Nat → RMat → RMat)
    (u : Nat → Nat → Nat → Nat → Nat → ℝ)
    (hW : r.W.length = r.n_observe) (hWr : ∀ row ∈ r.W, row.length = r.n_hidden)
    (hbv : r.b_v.length = r.n_observe) (hbh : r.b_h.length = r.n_hidden)
    (hdata : ∀ row ∈ data, row.length = r.n_observe) :
    ∃ out, RBM.train r data sh u = Except.ok out ∧
      out.1.n_hidden = r.n_hidden ∧ out.1.n_observe = r.n_observe ∧
      out.1.W.length = r.n_observe ∧ (∀ row ∈ out.1.W, row.length = r.n_hidden) ∧
      out.1.b_v.length = r.n_observe ∧ out.1.b_h.length = r.n_hidden := by
  have _ := hdata
  obtain ⟨⟨hW', hWr', hbv', hbh'⟩, hnh, hno⟩ :=
    trainPure_shapes r data sh u ⟨hW, hWr, hbv, hbh⟩
  refine ⟨trainPure r data sh u, train_eq r data sh u, hnh, hno, ?_, ?_, ?_, ?_⟩
  · rw [hW', hno]
  · intro row hrow
    rw [hWr' row hrow, hnh]
  · rw [hbv', hno]
  · rw [hbh', hnh]

/-- Witness for C9: training the one-unit engine on a single sample. -/
theorem C9_shapes_invariant_witness :
    (rbm1.W.length = rbm1.n_observe ∧ (∀ row ∈ rbm1.W, row.length = rbm1.n_hidden) ∧
      rbm1.b_v.length = rbm1.n_observe ∧ rbm1.b_h.length = rbm1.n_hidden ∧
      (∀ row ∈ [[(0 : ℝ)]], row.length = rbm1.n_observe)) ∧
    (∃ out, RBM.train rbm1 [[(0 : ℝ)]] (fun _ d => d) oz5 = Except.ok out ∧
      out.1.n_hidden = rbm1.n_hidden ∧ out.1.n_observe = rbm1.n_observe ∧
      out.1.W.length = rbm1.n_observe ∧ (∀ row ∈ out.1.W, row.length = rbm1.n_hidden) ∧
      out.1.b_v.length = rbm1.n_observe ∧ out.1.b_h.length = rbm1.n_hidden) :=
  ⟨⟨by decide, by decide, by decide, by decide, by decide⟩,
    C9_shapes_invariant rbm1 [[(0 : ℝ)]] (fun _ d => d) oz5
      (by decide) (by decide) (by decide) (by decide) (by decide)⟩

/-- Counterexample for C2: `train` shuffles the caller's array in place
(`np.random.shuffle` acts on the `reshape` view of `data`), so after
`train` returns, the caller's data can hold the same rows in a different
order: here `[[0], [1]]` has become `[[1], [0]]`. -/
theorem C2_counterexample :
    (RBM.train rbm1 dataC2 shRev oz5).map (fun out => out.2) = Except.ok [[(1 : ℝ)], [0]] ∧
    [[(1 : ℝ)], [0]] ≠ dataC2 := by
  constructor
  · rw [train_eq]
    show Except.ok (trainPure rbm1 dataC2 shRev oz5).2 = _
    rw [trainPure_snd]
    rfl
  · intro h
    have h0 : ([(1 : ℝ)] : List ℝ) = [0] := (List.cons.injEq _ _ _ _).mp h |>.1
    have h1 : (1 : ℝ) = 0 := (List.cons.injEq _ _ _ _).mp h0 |>.1
    exact one_ne_zero h1

/-- C2 as amended: `train` consumes the dataset up to an in-place shuffle:
after `train` returns, the caller's array holds exactly the original rows
as a multiset — a permutation of the original row order — with each
row's contents unchanged (the batch copies `v0 = batch.astype(float64)`
never write back). -/
theorem C2_amended_train_permutes (r : RBM) (data : RMat) (sh : Nat → RMat → RMat)
    (u : Nat → Nat → Nat → Nat → Nat → ℝ) (hsh : ∀ e d, (sh e d).Perm d) :
    ∃ out, RBM.train r data sh u = Except.ok out ∧ out.2.Perm data := by
  refine ⟨trainPure r data sh u, train_eq r data sh u, ?_⟩
  rw [trainPure_snd]
  exact foldl_invariant (fun d : RMat => d.Perm data) (fun d e => sh e d)
    (fun d e hd => (hsh e d).trans hd) (List.range epochs) data (List.Perm.refl data)

/-- Witness for C2 (amended): with the identity shuffle outcome, training
returns the dataset as a permutation of itself. -/
theorem C2_amended_train_permutes_witness :
    (∀ e d, (shId e d).Perm d) ∧
    (∃ out, RBM.train rbm1 dataC2 shId oz5 = Except.ok out ∧ out.2.Perm dataC2) :=
  ⟨fun _ d => List.Perm.refl d,
    C2_amended_train_permutes rbm1 dataC2 shId oz5 (fun _ d => List.Perm.refl d)⟩

lemma sample_binary_sigmoid (u : Nat → ℝ) (l : RVec) :
    sample_binary u (vecSigmoid l) = Except.ok (bernoulliV u (vecSigmoid l)) := by
  have hc : ¬ ((∃ p ∈ vecSigmoid l, p < 0) ∨ (∃ p ∈ vecSigmoid l, 1 < p)) := by
    rintro (⟨p, hp, hlt⟩ | ⟨p, hp, hlt⟩)
    · simp only [vecSigmoid, List.mem_map] at hp
      obtain ⟨x, _, hx⟩ := hp
      rw [← hx] at hlt
      exact absurd hlt (not_lt.mpr (le_of_lt (sigmoid_pos x)))
    · simp only [vecSigmoid, List.mem_map] at hp
      obtain ⟨x, _, hx⟩ := hp
      rw [← hx] at hlt
      exact absurd hlt (not_lt.mpr (le_of_lt (sigmoid_lt_one x)))
  unfold sample_binary
  rw [if_neg hc]

lemma gibbsStep_eq (r : RBM) (u : Nat → Nat → ℝ) (v : RVec) :
    gibbsStep r u v = Except.ok (gibbsPure r u v) := by
  simp only [gibbsStep, gibbsPure, sample_binary_sigmoid, exceptBind_ok]

lemma gibbsPure_length (r : RBM) (u : Nat → Nat → ℝ) (v : RVec) :
    (gibbsPure r u v).length = min r.W.length r.b_v.length := by
  simp [gibbsPure, bernoulliV, vecSigmoid, vecDotMat]

lemma gibbsPure_mem (r : RBM) (u : Nat → Nat → ℝ) (v : RVec) :
    ∀ x ∈ gibbsPure r u v, x = 0 ∨ x = 1 :=
  bernoulliV_mem _ _

lemma gibbsFold (r : RBM) (u : Nat → Nat → Nat → ℝ)
    (hW : r.W.length = r.n_observe) (hb : r.b_v.length = r.n_observe)
    (l : List Nat) (v : RVec) (hlen : v.length = r.n_observe)
    (hmem : ∀ x ∈ v, x = 0 ∨ x = 1) :
    (l.foldlM (fun v t => gibbsStep r (u t) v) v) =
      Except.ok (l.foldl (fun v t => gibbsPure r (u t) v) v) ∧
    (l.foldl (fun v t => gibbsPure r (u t) v) v).length = r.n_observe ∧
    (∀ x ∈ l.foldl (fun v t => gibbsPure r (u t) v) v, x = 0 ∨ x = 1) := by
  refine ⟨foldlM_except_ok _ _ (fun s t => gibbsStep_eq r (u t) s) l v, ?_⟩
  have hinv := foldl_invariant
    (fun w : RVec => w.length = r.n_observe ∧ ∀ x ∈ w, x = 0 ∨ x = 1)
    (fun v t => gibbsPure r (u t) v)
    (fun w t _ => ⟨by rw [gibbsPure_length, hW, hb, min_self], gibbsPure_mem r (u t) w⟩)
    l v ⟨hlen, hmem⟩
  exact hinv

lemma sample_spec (r : RBM) (u0 : Nat → ℝ) (u : Nat → Nat → Nat → ℝ)
    (hW : r.W.length = r.n_observe) (hb : r.b_v.length = r.n_observe) :
    (r.n_observe = 784 → ∃ m, RBM.sample r u0 u = Except.ok m ∧ m.length = 28 ∧
      (∀ row ∈ m, row.length = 28 ∧ ∀ x ∈ row, x = 0 ∨ x = 1)) ∧
    (r.n_observe ≠ 784 → RBM.sample r u0 u = Except.error "cannot reshape array") := by
  set v0 := (List.range r.n_observe).map (fun i => if u0 i < 0.5 then (1 : ℝ) else 0) with hv0
  have hv0len : v0.length = r.n_observe := by simp [hv0]
  have hv0mem : ∀ x ∈ v0, x = 0 ∨ x = 1 := by
    intro x hx
    simp only [hv0, List.mem_map] at hx
    obtain ⟨i, _, hi⟩ := hx
    by_cases h : u0 i < 0.5
    · rw [if_pos h] at hi
      exact Or.inr hi.symm
    · rw [if_neg h] at hi
      exact Or.inl hi.symm
  obtain ⟨hfold, hlen, hmem⟩ :=
    gibbsFold r u hW hb (List.range 1000) v0 hv0len hv0mem
  set vf := (List.range 1000).foldl (fun v t => gibbsPure r (u t) v) v0 with hvf
  have hs : RBM.sample r u0 u =
      ((List.range 1000).foldlM (fun v t => gibbsStep r (u t) v) v0 >>=
        fun v => reshape2 28 28 v) := rfl
  rw [hfold, exceptBind_ok] at hs
  constructor
  · intro h784
    refine ⟨(List.range 28).map (fun i => (vf.drop (i * 28)).take 28), ?_, by simp, ?_⟩
    · rw [hs]
      unfold reshape2
      rw [if_pos (by rw [hlen, h784])]
    · intro row hrow
      simp only [List.mem_map, List.mem_range] at hrow
      obtain ⟨i, hi, hrow⟩ := hrow
      constructor
      · rw [← hrow, List.length_take, List.length_drop, hlen, h784]
        omega
      · intro x hx
        rw [← hrow] at hx
        exact hmem x (List.mem_of_mem_drop (List.mem_of_mem_take hx))
  · intro h784
    rw [hs]
    unfold reshape2
    rw [if_neg]
    rw [hlen]
    intro hcontra
    exact h784 (by omega)

/-- Counterexample for C1: the engine itself reshapes to 28 × 28, so on
an engine with `n_visible = 2` every call to `sample` raises a reshape
error instead of returning a binary array of length `n_visible`. -/
theorem C1_counterexample :
    RBM.sample rbm2 oz1 oz3 = Except.error "cannot reshape array" :=
  (sample_spec rbm2 oz1 oz3 (by decide) (by decide)).2 (by decide)

/-- C1 as amended: `sample` performs the 28 × 28 reshape itself.  For a
well-shaped engine it returns a 28 × 28 array (784 entries in total, i.e.
`n_visible` of them) with every entry `0` or `1` exactly when
`n_visible = 784`, and fails with a reshape error whenever
`n_visible ≠ 784`. -/
theorem C1_amended_sample (r : RBM) (u0 : Nat → ℝ) (u : Nat → Nat → Nat → ℝ)
    (hW : r.W.length = r.n_observe) (hb : r.b_v.length = r.n_observe) :
    (r.n_observe = 784 → ∃ m, RBM.sample r u0 u = Except.ok m ∧ m.length = 28 ∧
      (∀ row ∈ m, row.length = 28 ∧ ∀ x ∈ row, x = 0 ∨ x = 1)) ∧
    (r.n_observe ≠ 784 → RBM.sample r u0 u = Except.error "cannot reshape array") :=
  sample_spec r u0 u hW hb

/-- Witness for C1 (amended): the MNIST-sized engine yields a 28 × 28
binary array. -/
theorem C1_amended_sample_witness :
    (rbm784.W.length = rbm784.n_observe ∧ rbm784.b_v.length = rbm784.n_observe ∧
      rbm784.n_observe = 784) ∧
    (∃ m, RBM.sample rbm784 oz1 oz3 = Except.ok m ∧ m.length = 28 ∧
      (∀ row ∈ m, row.length = 28 ∧ ∀ x ∈ row, x = 0 ∨ x = 1)) := by
  have h1 : rbm784.W.length = rbm784.n_observe := List.length_replicate 784 [0]
  have h2 : rbm784.b_v.length = rbm784.n_observe := List.length_replicate 784 0
  exact ⟨⟨h1, h2, rfl⟩, (C1_amended_sample rbm784 oz1 oz3 h1 h2).1 rfl⟩
